import Mathlib

/-!
Verification of the point-positioning solver in `python/algorithms/snapshot.py`
(`newton_raphson` and `_solve_pos`).

Modelling conventions:
* machine floats are idealised as elements of a linear ordered field
  (instantiated at `ℚ` for concrete evaluations and at `ℝ` for the
  pseudorange model, whose residual contains a square root);
* the state vector is `Fin 4 → α`, an epoch's per-satellite data are
  vectors `Fin n → α`, matrices are Mathlib's `Matrix (Fin n) (Fin 4) α`;
* the unbounded `while` loop of `newton_raphson` is a fuel-indexed
  recursion returning `Option`: `none` means the fuel ran out, and
  "the loop diverges" is rendered as "`none` for every fuel";
* `np.linalg.pinv` and the square root used by `np.linalg.norm` are
  external numpy primitives (the spec's "linear algebra primitive"
  collaborator); they are passed as explicit function parameters
  (`pinv`, `sqrtFn`) and instantiated concretely where needed (in every
  concrete run below the Jacobian handed to `pinv` is the identity
  matrix, whose Moore-Penrose pseudoinverse is itself, so `fun A => A`
  is a faithful instantiation there).
-/

namespace Snapshot

/-- `np.sum(np.abs(v))`: the L1 norm of a vector, as used by the
convergence check of `newton_raphson`. -/
def l1norm {α : Type} [LinearOrderedField α] {n : ℕ} (v : Fin n → α) : α :=
  ∑ i, |v i|

/-- The sum of squares of the entries of a vector; `np.linalg.norm v`
is `sqrt (sumSq v)`. -/
def sumSq {α : Type} [LinearOrderedField α] {n : ℕ} (v : Fin n → α) : α :=
  ∑ i, (v i) ^ 2

/-- The loop body's step `lam*(np.linalg.pinv(df(x0)) @ f(x0))` of
`newton_raphson`, as a function of the current iterate `x0`. -/
def stepVec {α : Type} [LinearOrderedField α] {n : ℕ}
    (pinv : Matrix (Fin n) (Fin 4) α → Matrix (Fin 4) (Fin n) α)
    (f : (Fin 4 → α) → (Fin n → α))
    (df : (Fin 4 → α) → Matrix (Fin n) (Fin 4) α)
    (lam : α) (x0 : Fin 4 → α) : Fin 4 → α :=
  fun i => lam * (pinv (df x0)).mulVec (f x0) i

/-- The `while` loop of `newton_raphson`, with explicit fuel.

Source:
```
while np.sum(np.abs(delta_x))>e:
    delta_x = lam*(np.linalg.pinv(df(x0)) @ f(x0))
    x0 = x0 - delta_x
```
The loop state is the pair `(x0, delta_x)`; `none` means the fuel was
exhausted before the convergence check succeeded. -/
def nrLoop {α : Type} [LinearOrderedField α] {n : ℕ}
    (pinv : Matrix (Fin n) (Fin 4) α → Matrix (Fin 4) (Fin n) α)
    (f : (Fin 4 → α) → (Fin n → α))
    (df : (Fin 4 → α) → Matrix (Fin n) (Fin 4) α)
    (e lam : α) : ℕ → (Fin 4 → α) → (Fin 4 → α) → Option (Fin 4 → α)
  | 0, _, _ => none
  | fuel + 1, x0, delta_x =>
    if l1norm delta_x > e then
      nrLoop pinv f df e lam fuel (x0 - stepVec pinv f df lam x0)
        (stepVec pinv f df lam x0)
    else
      some x0

/-- `newton_raphson(f, df, x0, e=1e-3, lam=1.)` from `snapshot.py`.

`delta_x` is initialised to `np.ones_like(x0)` (four ones) and the final
return value is `(x0, np.linalg.norm(f(x0)))`, the norm being
`sqrtFn (sumSq (f x0))` with `sqrtFn` the external square root
(`Real.sqrt` at `α = ℝ`).  The Python defaults are `e = 1e-3`,
`lam = 1`. -/
def newton_raphson {α : Type} [LinearOrderedField α] {n : ℕ}
    (sqrtFn : α → α)
    (pinv : Matrix (Fin n) (Fin 4) α → Matrix (Fin 4) (Fin n) α)
    (f : (Fin 4 → α) → (Fin n → α))
    (df : (Fin 4 → α) → Matrix (Fin n) (Fin 4) α)
    (x0 : Fin 4 → α) (e lam : α) (fuel : ℕ) : Option ((Fin 4 → α) × α) :=
  (nrLoop pinv f df e lam fuel x0 (fun _ => 1)).map
    (fun x => (x, sqrtFn (sumSq (f x))))

/-- Modelled from the spec: the Newton-Raphson loop as the claims
describe it, stopping only when the L1 norm of the just-computed step
falls STRICTLY below `e` (the code instead continues only while it is
strictly above `e`).  Used solely to compare against `nrLoop`. -/
def nrLoopStrict {α : Type} [LinearOrderedField α] {n : ℕ}
    (pinv : Matrix (Fin n) (Fin 4) α → Matrix (Fin 4) (Fin n) α)
    (f : (Fin 4 → α) → (Fin n → α))
    (df : (Fin 4 → α) → Matrix (Fin n) (Fin 4) α)
    (e lam : α) : ℕ → (Fin 4 → α) → (Fin 4 → α) → Option (Fin 4 → α)
  | 0, _, _ => none
  | fuel + 1, x0, delta_x =>
    if l1norm delta_x < e then
      some x0
    else
      nrLoopStrict pinv f df e lam fuel (x0 - stepVec pinv f df lam x0)
        (stepVec pinv f df lam x0)

/-! ### Generic unfolding lemmas for the loop -/

theorem nrLoop_stop {α : Type} [LinearOrderedField α] {n : ℕ}
    (pinv : Matrix (Fin n) (Fin 4) α → Matrix (Fin 4) (Fin n) α)
    (f : (Fin 4 → α) → (Fin n → α))
    (df : (Fin 4 → α) → Matrix (Fin n) (Fin 4) α)
    (e lam : α) (fuel : ℕ) (x0 delta_x : Fin 4 → α)
    (h : l1norm delta_x ≤ e) :
    nrLoop pinv f df e lam (fuel + 1) x0 delta_x = some x0 := by
  simp [nrLoop, not_lt.mpr h]

theorem nrLoop_go {α : Type} [LinearOrderedField α] {n : ℕ}
    (pinv : Matrix (Fin n) (Fin 4) α → Matrix (Fin 4) (Fin n) α)
    (f : (Fin 4 → α) → (Fin n → α))
    (df : (Fin 4 → α) → Matrix (Fin n) (Fin 4) α)
    (e lam : α) (fuel : ℕ) (x0 delta_x : Fin 4 → α)
    (h : e < l1norm delta_x) :
    nrLoop pinv f df e lam (fuel + 1) x0 delta_x =
      nrLoop pinv f df e lam fuel (x0 - stepVec pinv f df lam x0)
        (stepVec pinv f df lam x0) := by
  simp [nrLoop, h]

theorem nrLoopStrict_stop {α : Type} [LinearOrderedField α] {n : ℕ}
    (pinv : Matrix (Fin n) (Fin 4) α → Matrix (Fin 4) (Fin n) α)
    (f : (Fin 4 → α) → (Fin n → α))
    (df : (Fin 4 → α) → Matrix (Fin n) (Fin 4) α)
    (e lam : α) (fuel : ℕ) (x0 delta_x : Fin 4 → α)
    (h : l1norm delta_x < e) :
    nrLoopStrict pinv f df e lam (fuel + 1) x0 delta_x = some x0 := by
  simp [nrLoopStrict, h]

theorem nrLoopStrict_go {α : Type} [LinearOrderedField α] {n : ℕ}
    (pinv : Matrix (Fin n) (Fin 4) α → Matrix (Fin 4) (Fin n) α)
    (f : (Fin 4 → α) → (Fin n → α))
    (df : (Fin 4 → α) → Matrix (Fin n) (Fin 4) α)
    (e lam : α) (fuel : ℕ) (x0 delta_x : Fin 4 → α)
    (h : e ≤ l1norm delta_x) :
    nrLoopStrict pinv f df e lam (fuel + 1) x0 delta_x =
      nrLoopStrict pinv f df e lam fuel (x0 - stepVec pinv f df lam x0)
        (stepVec pinv f df lam x0) := by
  simp [nrLoopStrict, not_lt.mpr h]

theorem l1norm_ones {α : Type} [LinearOrderedField α] :
    l1norm (fun _ : Fin 4 => (1 : α)) = 4 := by
  simp [l1norm, Fin.sum_univ_four]

theorem l1norm_nonneg {α : Type} [LinearOrderedField α] {n : ℕ}
    (v : Fin n → α) : 0 ≤ l1norm v :=
  Finset.sum_nonneg fun i _ => abs_nonneg (v i)

/-! ### The pseudorange model `_solve_pos` -/

/-- Modelled from the spec: `gpsconsts.C`, the speed of light in meters
per second (`utils/constants.py` is not part of the sources at hand; the
spec describes the constant as "the speed of light in meters/second"). -/
noncomputable def gpsconstsC : ℝ := 299792458

/-- The residual closure `f(vars)` defined inside `_solve_pos`, with the
captured per-satellite arrays made explicit parameters.

Source:
```
x, y, z, cdt = list(vars)
tilde_prange = np.sqrt((x - X)**2 + (y - Y)**2 + (z - Z)**2)
_prange = tilde_prange + cdt - B
delta_prange = prange-_prange
return delta_prange
``` -/
noncomputable def f {n : ℕ} (prange X Y Z B : Fin n → ℝ)
    (vars : Fin 4 → ℝ) : Fin n → ℝ :=
  let x := vars 0
  let y := vars 1
  let z := vars 2
  let cdt := vars 3
  let tilde_prange : Fin n → ℝ :=
    fun i => Real.sqrt ((x - X i) ^ 2 + (y - Y i) ^ 2 + (z - Z i) ^ 2)
  let uprange : Fin n → ℝ := fun i => tilde_prange i + cdt - B i
  let delta_prange : Fin n → ℝ := fun i => prange i - uprange i
  delta_prange

/-- The Jacobian closure `df(vars)` defined inside `_solve_pos`, with the
captured per-satellite arrays made explicit parameters.

Source:
```
x, y, z, cdt = list(vars)
tilde_prange = np.sqrt((x - X)**2 + (y - Y)**2 + (z - Z)**2)
_prange = tilde_prange + cdt - B
delta_prange = prange-_prange
derivatives = np.zeros((len(prange), 4))
derivatives[:, 0] = -(x - X)/tilde_prange
derivatives[:, 1] = -(y - Y)/tilde_prange
derivatives[:, 2] = -(z - Z)/tilde_prange
derivatives[:, 3] = -1
return derivatives
```
(`_prange` and `delta_prange` are computed but unused, as in the
source.) -/
noncomputable def df {n : ℕ} (prange X Y Z B : Fin n → ℝ)
    (vars : Fin 4 → ℝ) : Matrix (Fin n) (Fin 4) ℝ :=
  let x := vars 0
  let y := vars 1
  let z := vars 2
  let cdt := vars 3
  let tilde_prange : Fin n → ℝ :=
    fun i => Real.sqrt ((x - X i) ^ 2 + (y - Y i) ^ 2 + (z - Z i) ^ 2)
  let uprange : Fin n → ℝ := fun i => tilde_prange i + cdt - B i
  let delta_prange : Fin n → ℝ := fun i => prange i - uprange i
  let derivatives : Matrix (Fin n) (Fin 4) ℝ := 0
  let derivatives := derivatives.updateColumn 0 (fun i => -(x - X i) / tilde_prange i)
  let derivatives := derivatives.updateColumn 1 (fun i => -(y - Y i) / tilde_prange i)
  let derivatives := derivatives.updateColumn 2 (fun i => -(z - Z i) / tilde_prange i)
  let derivatives := derivatives.updateColumn 3 (fun _ => -1)
  derivatives

/-- `_solve_pos(prange, X, Y, Z, B, e=1e-3)` from `snapshot.py`.

Source:
```
if len(prange)<4:
    return np.empty(4)
x, y, z, cdt = 100., 100., 100., 0.
... (f, df as above) ...
x0 = np.array([x, y, z, cdt])
x_fix, res_err = newton_raphson(f, df, x0, e=e)
x_fix[-1] = x_fix[-1]*1e6/gpsconsts.C
return x_fix
```
`empty4` models the uninitialised contents of `np.empty(4)` (numpy
guarantees the shape, four entries, but not the values); `pinv` and
`fuel` are threaded down to `newton_raphson`, which is called with
`lam` at its default `1`; `res_err` is discarded, as in the source.
The result is returned as a `List` so that its length is an observable,
`none` meaning the inner loop ran out of fuel. -/
noncomputable def _solve_pos {n : ℕ}
    (pinv : Matrix (Fin n) (Fin 4) ℝ → Matrix (Fin 4) (Fin n) ℝ)
    (empty4 : Fin 4 → ℝ)
    (prange X Y Z B : Fin n → ℝ) (e : ℝ) (fuel : ℕ) : Option (List ℝ) :=
  if n < 4 then
    some (List.ofFn empty4)
  else
    let x0 : Fin 4 → ℝ := ![100, 100, 100, 0]
    match newton_raphson Real.sqrt pinv (f prange X Y Z B)
        (df prange X Y Z B) x0 e 1 fuel with
    | none => none
    | some (x_fix, _res_err) =>
        some (List.ofFn (Function.update x_fix 3 (x_fix 3 * 1000000 / gpsconstsC)))

/-! ### Claims about the pseudorange model -/

/-- C3: for every candidate state `(x, y, z, cdt)` and every satellite
`i` of an epoch with arrays `prange, X, Y, Z, B`, the residual closure
built by `_solve_pos` returns exactly
`f_i = prange[i] - (sqrt((x-X[i])^2 + (y-Y[i])^2 + (z-Z[i])^2) + cdt - B[i])`,
an `n`-length vector that is a pure function of the state, the satellite
data and the corrections. -/
theorem residual_formula {n : ℕ} (prange X Y Z B : Fin n → ℝ)
    (vars : Fin 4 → ℝ) (i : Fin n) :
    f prange X Y Z B vars i =
      prange i -
        (Real.sqrt ((vars 0 - X i) ^ 2 + (vars 1 - Y i) ^ 2 +
            (vars 2 - Z i) ^ 2) + vars 3 - B i) :=
  rfl

/-- C4: for every candidate state, row `i` of the Jacobian closure built
by `_solve_pos` is
`(-(x-X[i])/range_i, -(y-Y[i])/range_i, -(z-Z[i])/range_i, -1)` with
`range_i = sqrt((x-X[i])^2 + (y-Y[i])^2 + (z-Z[i])^2)`; the matrix is a
function of the state passed at each call, so it is recomputed from the
current state, never cached. -/
theorem jacobian_formula {n : ℕ} (prange X Y Z B : Fin n → ℝ)
    (vars : Fin 4 → ℝ) (i : Fin n) :
    df prange X Y Z B vars i 0 =
        -(vars 0 - X i) /
          Real.sqrt ((vars 0 - X i) ^ 2 + (vars 1 - Y i) ^ 2 + (vars 2 - Z i) ^ 2) ∧
    df prange X Y Z B vars i 1 =
        -(vars 1 - Y i) /
          Real.sqrt ((vars 0 - X i) ^ 2 + (vars 1 - Y i) ^ 2 + (vars 2 - Z i) ^ 2) ∧
    df prange X Y Z B vars i 2 =
        -(vars 2 - Z i) /
          Real.sqrt ((vars 0 - X i) ^ 2 + (vars 1 - Y i) ^ 2 + (vars 2 - Z i) ^ 2) ∧
    df prange X Y Z B vars i 3 = -1 := by
  refine ⟨?_, ?_, ?_, ?_⟩ <;>
    simp [df, Matrix.updateColumn_apply]

/-- C9: whenever the epoch is solvable (`¬ n < 4`), `_solve_pos` runs
the Newton iteration from the fixed seed `![100, 100, 100, 0]` (100
meters in each position component, zero clock bias), regardless of the
measurements `prange, X, Y, Z, B`, of `e` and of the available fuel:
its result is the post-processed output of `newton_raphson` started at
that constant seed. -/
theorem solve_pos_fixed_seed {n : ℕ}
    (pinv : Matrix (Fin n) (Fin 4) ℝ → Matrix (Fin 4) (Fin n) ℝ)
    (empty4 : Fin 4 → ℝ) (prange X Y Z B : Fin n → ℝ) (e : ℝ) (fuel : ℕ)
    (h : ¬ n < 4) :
    _solve_pos pinv empty4 prange X Y Z B e fuel =
      (newton_raphson Real.sqrt pinv (f prange X Y Z B) (df prange X Y Z B)
          ![100, 100, 100, 0] e 1 fuel).map
        (fun p => List.ofFn (Function.update p.1 3 (p.1 3 * 1000000 / gpsconstsC))) := by
  simp only [_solve_pos, if_neg h]
  rcases hnr : newton_raphson Real.sqrt pinv (f prange X Y Z B) (df prange X Y Z B)
      ![100, 100, 100, 0] e 1 fuel with _ | ⟨x_fix, res_err⟩ <;> simp [hnr]

/-- Witness for C9 at a concrete solvable epoch (`n = 4`, all
measurements zero, `e = 1`, no fuel). -/
theorem solve_pos_fixed_seed_witness :
    _solve_pos (n := 4) (fun _ => 0) (fun _ => 0)
        (fun _ => 0) (fun _ => 0) (fun _ => 0) (fun _ => 0) (fun _ => 0) 1 0 =
      (newton_raphson (n := 4) Real.sqrt (fun _ => 0)
          (f (fun _ : Fin 4 => (0 : ℝ)) (fun _ => 0) (fun _ => 0) (fun _ => 0)
            (fun _ => 0))
          (df (fun _ : Fin 4 => (0 : ℝ)) (fun _ => 0) (fun _ => 0) (fun _ => 0)
            (fun _ => 0))
          ![100, 100, 100, 0] 1 1 0).map
        (fun p => List.ofFn (Function.update p.1 3 (p.1 3 * 1000000 / gpsconstsC))) :=
  solve_pos_fixed_seed (fun _ => 0) (fun _ => 0) (fun _ => 0) (fun _ => 0)
    (fun _ => 0) (fun _ => 0) (fun _ => 0) 1 0 (by decide)

/-- C1 (amended): for fewer than 4 satellites `_solve_pos` returns,
without error, the four uninitialised values of `np.empty(4)` — a
4-vector whose shape is defined but whose contents are whatever happens
to be in the buffer — and never invokes the Newton-Raphson loop: the
result is independent of `pinv`, of the measurements, of `e` and of the
fuel, and is produced even with zero fuel, with which any call to
`newton_raphson` would have been `none`. -/
theorem solve_pos_underdetermined {n : ℕ}
    (pinv : Matrix (Fin n) (Fin 4) ℝ → Matrix (Fin 4) (Fin n) ℝ)
    (empty4 : Fin 4 → ℝ) (prange X Y Z B : Fin n → ℝ) (e : ℝ) (fuel : ℕ)
    (h : n < 4) :
    _solve_pos pinv empty4 prange X Y Z B e fuel = some (List.ofFn empty4) := by
  rw [_solve_pos, if_pos h]

/-- Witness for C1 (amended) at `n = 0`. -/
theorem solve_pos_underdetermined_witness :
    _solve_pos (n := 0) (fun _ => 0) (fun _ => 0) ![] ![] ![] ![] ![] 1 0 =
      some (List.ofFn (fun _ : Fin 4 => (0 : ℝ))) :=
  solve_pos_underdetermined (fun _ => 0) (fun _ => 0) ![] ![] ![] ![] ![] 1 0
    (by decide)

/-- Counterexample for C1 as stated: in the `n < 4` branch `_solve_pos`
does not return a defined "unsolvable" sentinel — its result is the
uninitialised contents of `np.empty(4)`, so two runs on the same
degenerate input that differ only in what the freshly allocated buffer
happens to contain return different values. -/
theorem solve_pos_no_defined_sentinel :
    _solve_pos (n := 0) (fun _ => 0) (fun _ => 0) ![] ![] ![] ![] ![] 1 0 ≠
      _solve_pos (n := 0) (fun _ => 0) (fun _ => 1) ![] ![] ![] ![] ![] 1 0 := by
  rw [solve_pos_underdetermined (fun _ => 0) (fun _ => 0) ![] ![] ![] ![] ![] 1 0
      (by decide),
    solve_pos_underdetermined (fun _ => 0) (fun _ => 1) ![] ![] ![] ![] ![] 1 0
      (by decide)]
  intro hcontra
  have h0 := congrArg (fun o => o.getD []) hcontra
  simp [List.ofFn_succ] at h0

/-- C10: whichever branch is taken, when `_solve_pos` returns a value it
is a list of exactly 4 entries. -/
theorem solve_pos_returns_4vector {n : ℕ}
    (pinv : Matrix (Fin n) (Fin 4) ℝ → Matrix (Fin 4) (Fin n) ℝ)
    (empty4 : Fin 4 → ℝ) (prange X Y Z B : Fin n → ℝ) (e : ℝ) (fuel : ℕ)
    (out : List ℝ)
    (h : _solve_pos pinv empty4 prange X Y Z B e fuel = some out) :
    out.length = 4 := by
  simp only [_solve_pos] at h
  split at h
  · cases h
    simp [List.length_ofFn]
  · split at h
    · exact absurd h (by simp)
    · cases h
      simp [List.length_ofFn]

/-- Witness for C10 at a concrete input (the degenerate `n = 0` epoch,
whose hypothesis is discharged by evaluation). -/
theorem solve_pos_returns_4vector_witness :
    _solve_pos (n := 0) (fun _ => 0) (fun _ => 2) ![] ![] ![] ![] ![] 1 0 =
        some (List.ofFn (fun _ : Fin 4 => (2 : ℝ))) ∧
      (List.ofFn (fun _ : Fin 4 => (2 : ℝ))).length = 4 :=
  ⟨by rw [_solve_pos, if_pos (by decide)],
    solve_pos_returns_4vector (fun _ => 0) (fun _ => 2) ![] ![] ![] ![] ![] 1 0 _
      (by rw [_solve_pos, if_pos (by decide)])⟩

/-! ### Claims about the generic Newton-Raphson solver -/

/-- C2 (amended): `newton_raphson` iterates the step
`delta = lam * pinv(df(x)) * f(x)` followed by `x = x - delta`, stops
exactly when the L1 norm of the step is `≤ e` (the code continues only
while it is strictly above `e`, so it also stops when the norm equals
`e` exactly, not only when it falls strictly below), and returns the
final state paired with the residual norm `sqrtFn (Σ f_i(x*)^2)`
evaluated at that final state (`sqrtFn = Real.sqrt` giving the L2 norm
over the reals). -/
theorem newton_raphson_loop_contract {α : Type} [LinearOrderedField α] {n : ℕ}
    (sqrtFn : α → α)
    (pinv : Matrix (Fin n) (Fin 4) α → Matrix (Fin 4) (Fin n) α)
    (fc : (Fin 4 → α) → (Fin n → α))
    (dfc : (Fin 4 → α) → Matrix (Fin n) (Fin 4) α)
    (e lam : α) (x0 x delta_x : Fin 4 → α) (fuel fl : ℕ) :
    (l1norm delta_x ≤ e → nrLoop pinv fc dfc e lam (fuel + 1) x delta_x = some x) ∧
    (e < l1norm delta_x →
      nrLoop pinv fc dfc e lam (fuel + 1) x delta_x =
        nrLoop pinv fc dfc e lam fuel
          (x - fun i => lam * (pinv (dfc x)).mulVec (fc x) i)
          (fun i => lam * (pinv (dfc x)).mulVec (fc x) i)) ∧
    newton_raphson sqrtFn pinv fc dfc x0 e lam fl =
      (nrLoop pinv fc dfc e lam fl x0 (fun _ => 1)).map
        (fun y => (y, sqrtFn (sumSq (fc y)))) :=
  ⟨fun h => nrLoop_stop pinv fc dfc e lam fuel x delta_x h,
    fun h => nrLoop_go pinv fc dfc e lam fuel x delta_x h, rfl⟩

/-- Witness for C2 (amended) at a concrete input over `ℚ`: the loop
stops on a check with L1 norm `4 ≤ 5` and the returned pair carries the
final state and the residual norm at it. -/
theorem newton_raphson_loop_contract_witness :
    nrLoop (α := ℚ) (n := 4) (fun A => A) (fun v => v) (fun _ => 1) 5 1 3
        (fun _ => 2) (fun _ => 1) = some (fun _ => 2) ∧
    newton_raphson (α := ℚ) (n := 4) id (fun A => A) (fun v => v) (fun _ => 1)
        (fun _ => 2) 5 1 3 = some ((fun _ => 2), sumSq (fun _ : Fin 4 => (2 : ℚ))) := by
  have h := newton_raphson_loop_contract (α := ℚ) (n := 4) id (fun A => A)
    (fun v => v) (fun _ => 1) 5 1 (fun _ => 2) (fun _ => 2) (fun _ => 1) 2 3
  have hstop : l1norm (fun _ : Fin 4 => (1 : ℚ)) ≤ 5 := by
    rw [l1norm_ones]; norm_num
  refine ⟨h.1 hstop, ?_⟩
  rw [h.2.2, h.1 hstop]
  rfl

/-- Counterexample for C2 as stated: the claim has the loop continue
until the step's L1 norm falls strictly below `e`, but the code stops as
soon as it is not strictly above `e`.  With `f = id`, `df = I` (whose
Moore-Penrose pseudoinverse is itself), `lam = 1/2`, `e = 2` and
`x0 = (1,1,1,1)`, the first computed step has L1 norm exactly `2 = e`:
the code stops there with state `(1/2,...)`, while the strict-stop loop
of the claim performs one more iteration and returns `(1/4,...)`. -/
theorem newton_raphson_stop_boundary :
    nrLoop (α := ℚ) (n := 4) (fun A => A) (fun v => v) (fun _ => 1) 2 (1/2) 5
        (fun _ => 1) (fun _ => 1) = some (fun _ => (1/2 : ℚ)) ∧
    nrLoopStrict (α := ℚ) (n := 4) (fun A => A) (fun v => v) (fun _ => 1) 2 (1/2) 5
        (fun _ => 1) (fun _ => 1) = some (fun _ => (1/4 : ℚ)) ∧
    some (fun _ => (1/2 : ℚ)) ≠ some (fun _ : Fin 4 => (1/4 : ℚ)) := by
  have hstep : ∀ v : Fin 4 → ℚ,
      stepVec (n := 4) (fun A => A) (fun w => w) (fun _ => 1) (1/2) v =
        fun i => v i / 2 := by
    intro v; funext i
    simp [stepVec, Matrix.one_mulVec]
    ring
  have hsub : ∀ c : ℚ, (fun _ : Fin 4 => c) - (fun i : Fin 4 => (fun _ : Fin 4 => c) i / 2) =
      fun _ : Fin 4 => c / 2 := by
    intro c; funext i
    simp [Pi.sub_apply]
    ring
  have hl1 : ∀ c : ℚ, 0 ≤ c → l1norm (fun _ : Fin 4 => c) = 4 * c := by
    intro c hc
    simp [l1norm, Fin.sum_univ_four, abs_of_nonneg hc]
  have h14 : (fun _ : Fin 4 => (1/2 : ℚ) / 2) = fun _ : Fin 4 => (1/4 : ℚ) := by
    funext i; norm_num
  refine ⟨?_, ?_, ?_⟩
  · have h1 := nrLoop_go (α := ℚ) (n := 4) (fun A => A) (fun w => w)
      (fun _ => 1) 2 (1/2) 4 (fun _ => 1) (fun _ => 1)
      (by rw [l1norm_ones]; norm_num)
    rw [hstep, hsub] at h1
    refine h1.trans ?_
    exact nrLoop_stop (fun A => A) (fun w => w) (fun _ => 1) 2 (1/2) 3 _ _
      (by rw [hl1 _ (by norm_num)]; norm_num)
  · have h1 := nrLoopStrict_go (α := ℚ) (n := 4) (fun A => A) (fun w => w)
      (fun _ => 1) 2 (1/2) 4 (fun _ => 1) (fun _ => 1)
      (by rw [l1norm_ones]; norm_num)
    rw [hstep, hsub] at h1
    have h2 := nrLoopStrict_go (α := ℚ) (n := 4) (fun A => A) (fun w => w)
      (fun _ => 1) 2 (1/2) 3 (fun _ => (1/2 : ℚ)) (fun _ => (1/2 : ℚ))
      (by rw [hl1 _ (by norm_num)]; norm_num)
    rw [hstep, hsub] at h2
    have h3 : nrLoopStrict (α := ℚ) (n := 4) (fun A => A) (fun w => w) (fun _ => 1)
        2 (1/2) 3 (fun _ => (1/2 : ℚ) / 2) (fun _ => (1/2 : ℚ) / 2) =
          some (fun _ => (1/2 : ℚ) / 2) :=
      nrLoopStrict_stop (fun A => A) (fun w => w) (fun _ => 1) 2 (1/2) 2 _ _
        (by rw [hl1 _ (by norm_num)]; norm_num)
    exact (h1.trans (h2.trans h3)).trans (congrArg some h14)
  · intro hco
    have h0 := congrFun (Option.some.inj hco) 0
    norm_num at h0

/-- C5 (amended): `newton_raphson` initialises the step sentinel to
`np.ones_like(x0)`, the all-ones 4-vector, whose L1 norm is `4` (not
`∞`): whenever `e < 4` the sentinel exceeds `e` and the loop performs at
least one Newton iteration (with only one unit of fuel the first check
passes and the fuel is exhausted inside the loop body). -/
theorem sentinel_forces_iteration {α : Type} [LinearOrderedField α] {n : ℕ}
    (pinv : Matrix (Fin n) (Fin 4) α → Matrix (Fin 4) (Fin n) α)
    (fc : (Fin 4 → α) → (Fin n → α))
    (dfc : (Fin 4 → α) → Matrix (Fin n) (Fin 4) α)
    (lam : α) (x0 : Fin 4 → α) (e : α) (h : e < 4) :
    l1norm (fun _ : Fin 4 => (1 : α)) > e ∧
    nrLoop pinv fc dfc e lam 1 x0 (fun _ => 1) = none := by
  have hgt : l1norm (fun _ : Fin 4 => (1 : α)) > e := by
    rw [l1norm_ones]; exact h
  exact ⟨hgt, (nrLoop_go pinv fc dfc e lam 0 x0 _ hgt).trans rfl⟩

/-- Witness for C5 (amended) at `e = 1 < 4` over `ℚ`. -/
theorem sentinel_forces_iteration_witness :
    l1norm (fun _ : Fin 4 => (1 : ℚ)) > 1 ∧
    nrLoop (α := ℚ) (n := 4) (fun A => A) (fun v => v) (fun _ => 1) 1 1 1
      (fun _ => 5) (fun _ => 1) = none :=
  sentinel_forces_iteration (fun A => A) (fun v => v) (fun _ => 1) 1
    (fun _ => 5) 1 (by norm_num)

/-- Counterexample for C5 as stated: at tolerance `e = 4` the sentinel
(L1 norm exactly `4`) does not exceed `e`, and the loop performs zero
iterations: with a single unit of fuel — which any iteration would
exhaust — `newton_raphson` already returns the untouched initial guess,
even though the residual is non-zero and a Newton step would move it. -/
theorem sentinel_not_infinite :
    ¬ l1norm (fun _ : Fin 4 => (1 : ℚ)) > 4 ∧
    newton_raphson (α := ℚ) (n := 4) id (fun A => A) (fun _ _ => 1) (fun _ => 1)
      (fun _ => 5) 4 1 1 = some ((fun _ => 5), 4) := by
  constructor
  · rw [l1norm_ones]
    exact lt_irrefl 4
  · have h1 : nrLoop (α := ℚ) (n := 4) (fun A => A) (fun _ _ => 1) (fun _ => 1) 4 1 1
        (fun _ => 5) (fun _ => 1) = some (fun _ => 5) :=
      nrLoop_stop (fun A => A) (fun _ _ => 1) (fun _ => 1) 4 1 0 (fun _ => 5) _
        (le_of_eq l1norm_ones)
    rw [newton_raphson, h1]
    simp [sumSq, Fin.sum_univ_four]

/-- Helper: with a negative tolerance the convergence check
`Σ|delta| > e` can never fail, so the loop runs forever (returns `none`
at every fuel), whatever `f`, `df`, `lam` and the state are. -/
theorem nrLoop_neg_tol_diverges {α : Type} [LinearOrderedField α] {n : ℕ}
    (pinv : Matrix (Fin n) (Fin 4) α → Matrix (Fin 4) (Fin n) α)
    (fc : (Fin 4 → α) → (Fin n → α))
    (dfc : (Fin 4 → α) → Matrix (Fin n) (Fin 4) α)
    (e lam : α) (he : e < 0) :
    ∀ (fuel : ℕ) (x delta_x : Fin 4 → α),
      nrLoop pinv fc dfc e lam fuel x delta_x = none := by
  intro fuel
  induction fuel with
  | zero => intro x delta_x; rfl
  | succ k ih =>
    intro x delta_x
    rw [nrLoop_go pinv fc dfc e lam k x delta_x
      (lt_of_lt_of_le he (l1norm_nonneg delta_x))]
    exact ih _ _

/-- C7 (amended): for every residual function, Jacobian function,
initial guess and NONNEGATIVE tolerance `e`, calling `newton_raphson`
with `lam = 0` returns the initial guess `x0` unchanged together with
the residual norm at `x0` (two units of fuel always suffice: the first
computed step is the zero vector, whose L1 norm `0` is not above `e`). -/
theorem lam_zero_identity {α : Type} [LinearOrderedField α] {n : ℕ}
    (sqrtFn : α → α)
    (pinv : Matrix (Fin n) (Fin 4) α → Matrix (Fin 4) (Fin n) α)
    (fc : (Fin 4 → α) → (Fin n → α))
    (dfc : (Fin 4 → α) → Matrix (Fin n) (Fin 4) α)
    (x0 : Fin 4 → α) (e : α) (he : 0 ≤ e) (fuel : ℕ) (hf : 2 ≤ fuel) :
    newton_raphson sqrtFn pinv fc dfc x0 e 0 fuel =
      some (x0, sqrtFn (sumSq (fc x0))) := by
  obtain ⟨k, rfl⟩ : ∃ k, fuel = k + 2 := ⟨fuel - 2, by omega⟩
  rw [newton_raphson]
  have hloop : nrLoop pinv fc dfc e 0 (k + 2) x0 (fun _ => 1) = some x0 := by
    rcases le_or_lt (l1norm (fun _ : Fin 4 => (1 : α))) e with hle | hgt
    · exact nrLoop_stop pinv fc dfc e 0 (k + 1) x0 _ hle
    · have hgo := nrLoop_go pinv fc dfc e 0 (k + 1) x0 (fun _ => 1) hgt
      have hstep : stepVec pinv fc dfc 0 x0 = fun _ => 0 := by
        funext i; simp [stepVec]
      rw [hstep] at hgo
      have hx : x0 - (fun _ : Fin 4 => (0 : α)) = x0 := by
        funext i; simp
      rw [hx] at hgo
      exact hgo.trans (nrLoop_stop pinv fc dfc e 0 k x0 _ (by simpa [l1norm] using he))
  rw [hloop]
  rfl

/-- Witness for C7 (amended) at a concrete input over `ℚ`. -/
theorem lam_zero_identity_witness :
    newton_raphson (α := ℚ) (n := 4) id (fun A => A) (fun _ _ => 1) (fun _ => 1)
        (fun _ => 7) 0 0 2 =
      some ((fun _ => 7), id (sumSq (fun _ : Fin 4 => (1 : ℚ)))) :=
  lam_zero_identity id (fun A => A) (fun _ _ => 1) (fun _ => 1) (fun _ => 7) 0
    (by norm_num) 2 (by norm_num)

/-- Counterexample for C7 as stated: the claim quantifies over every
tolerance, but at the (pathological, yet accepted) tolerance `e = -1`
the call with `lam = 0` never returns at all — the zero step keeps
satisfying `Σ|delta| > e`, so the loop diverges instead of returning
`(x0, ‖f(x0)‖₂)`. -/
theorem lam_zero_negative_tolerance :
    ¬ ∃ (fuel : ℕ) (r : (Fin 4 → ℚ) × ℚ),
        newton_raphson (α := ℚ) (n := 4) id (fun A => A) (fun _ _ => 0)
          (fun _ => 1) (fun _ => 0) (-1) 0 fuel = some r := by
  rintro ⟨fuel, r, hr⟩
  rw [newton_raphson,
    nrLoop_neg_tol_diverges (fun A => A) (fun _ _ => 0) (fun _ => 1) (-1) 0
      (by norm_num) fuel _ _] at hr
  exact Option.noConfusion hr

/-- Helper for C8: with the constant residual `f ≡ (1,1,1,1)`, identity
Jacobian (its own Moore-Penrose pseudoinverse), `lam = 1` and the
default tolerance `e = 1/1000`, every computed step is again `(1,1,1,1)`
with L1 norm `4 > 1/1000`, so the loop never meets the convergence
criterion. -/
theorem nrLoop_const_residual_diverges :
    ∀ (fuel : ℕ) (x delta_x : Fin 4 → ℚ), l1norm delta_x > 1/1000 →
      nrLoop (α := ℚ) (n := 4) (fun A => A) (fun _ _ => 1) (fun _ => 1)
        (1/1000) 1 fuel x delta_x = none := by
  intro fuel
  induction fuel with
  | zero => intro x delta_x _; rfl
  | succ k ih =>
    intro x delta_x hd
    rw [nrLoop_go (fun A => A) (fun _ _ => 1) (fun _ => 1) (1/1000) 1 k x delta_x hd]
    have hstep : stepVec (n := 4) (fun A => A) (fun _ _ => (1 : ℚ)) (fun _ => 1) 1 x =
        fun _ => 1 := by
      funext i
      simp [stepVec, Matrix.one_mulVec]
    rw [hstep]
    exact ih _ _ (by rw [l1norm_ones]; norm_num)

/-- C8: the `newton_raphson` loop has no iteration cap: there are a
residual function, a Jacobian function and an initial guess (here a
constant unit residual with identity Jacobian, at the default tolerance
and damping) for which the convergence criterion never holds, so the
call returns no result however much fuel it is given — the source
function is not total. -/
theorem newton_raphson_no_cap :
    ∃ (pinv : Matrix (Fin 4) (Fin 4) ℚ → Matrix (Fin 4) (Fin 4) ℚ)
      (fc : (Fin 4 → ℚ) → (Fin 4 → ℚ))
      (dfc : (Fin 4 → ℚ) → Matrix (Fin 4) (Fin 4) ℚ)
      (x0 : Fin 4 → ℚ) (e lam : ℚ),
      ∀ fuel, newton_raphson id pinv fc dfc x0 e lam fuel = none := by
  refine ⟨fun A => A, fun _ _ => 1, fun _ => 1, fun _ => 0, 1/1000, 1, fun fuel => ?_⟩
  rw [newton_raphson,
    nrLoop_const_residual_diverges fuel _ _ (by rw [l1norm_ones]; norm_num)]
  rfl

/-- C6: on a solvable epoch (`¬ n < 4`), once `newton_raphson` returns a
state `x_fix`, `_solve_pos` returns `x_fix` with ONLY the fourth (clock
bias) component rescaled to `x_fix[3] * 1e6 / C` (`C` the speed of
light); the three position components are returned exactly as the
solver produced them. -/
theorem clock_bias_rescaled {n : ℕ}
    (pinv : Matrix (Fin n) (Fin 4) ℝ → Matrix (Fin 4) (Fin n) ℝ)
    (empty4 : Fin 4 → ℝ) (prange X Y Z B : Fin n → ℝ) (e : ℝ) (fuel : ℕ)
    (x_fix : Fin 4 → ℝ) (res_err : ℝ)
    (h4 : ¬ n < 4)
    (h : newton_raphson Real.sqrt pinv (f prange X Y Z B) (df prange X Y Z B)
        ![100, 100, 100, 0] e 1 fuel = some (x_fix, res_err)) :
    _solve_pos pinv empty4 prange X Y Z B e fuel =
      some [x_fix 0, x_fix 1, x_fix 2, x_fix 3 * 1000000 / gpsconstsC] := by
  simp only [_solve_pos, if_neg h4, h]
  simp [List.ofFn_succ, Function.update_apply,
    show Fin.succ (2 : Fin 3) = 3 from by decide]

/-- Witness for C6 at a concrete solvable epoch (`n = 4`, zero
measurements, `e = 4`, one unit of fuel, so the loop stops at the first
check and the solver hands back the seed `(100, 100, 100, 0)` with its
residual norm): only the fourth component is rescaled by `1e6 / C`. -/
theorem clock_bias_rescaled_witness :
    _solve_pos (n := 4) (fun _ => 0) (fun _ => 0) (fun _ => 0) (fun _ => 0)
        (fun _ => 0) (fun _ => 0) (fun _ => 0) 4 1 =
      some [(100 : ℝ), 100, 100, 0 * 1000000 / gpsconstsC] := by
  have hloop : nrLoop (n := 4) (fun _ => 0)
      (f (fun _ : Fin 4 => (0 : ℝ)) (fun _ => 0) (fun _ => 0) (fun _ => 0)
        (fun _ => 0))
      (df (fun _ : Fin 4 => (0 : ℝ)) (fun _ => 0) (fun _ => 0) (fun _ => 0)
        (fun _ => 0)) 4 1 1 ![100, 100, 100, 0] (fun _ => 1) =
      some ![100, 100, 100, 0] :=
    nrLoop_stop _ _ _ 4 1 0 ![100, 100, 100, 0] _ (le_of_eq l1norm_ones)
  have hnr : newton_raphson (n := 4) Real.sqrt (fun _ => 0)
      (f (fun _ : Fin 4 => (0 : ℝ)) (fun _ => 0) (fun _ => 0) (fun _ => 0)
        (fun _ => 0))
      (df (fun _ : Fin 4 => (0 : ℝ)) (fun _ => 0) (fun _ => 0) (fun _ => 0)
        (fun _ => 0)) ![100, 100, 100, 0] 4 1 1 =
      some (![100, 100, 100, 0],
        Real.sqrt (sumSq (f (fun _ : Fin 4 => (0 : ℝ)) (fun _ => 0) (fun _ => 0)
          (fun _ => 0) (fun _ => 0) ![100, 100, 100, 0]))) := by
    rw [newton_raphson, hloop]
    rfl
  exact clock_bias_rescaled (fun _ => 0) (fun _ => 0) (fun _ => 0) (fun _ => 0)
    (fun _ => 0) (fun _ => 0) (fun _ => 0) 4 1 ![100, 100, 100, 0] _
    (by decide) hnr

end Snapshot
